import Mathlib

/-!
# The jsonnet import trampoline `CallImport_cgo` (jsonnet_cgo/bridge.c)

A shallow embedding of the C function

    char* CallImport_cgo(void *ctx, const char *base, const char *rel,
                         char **found_here, int *success)

over a block-structured memory.  Pointers are `NULL` or a block/offset pair,
the libc routines `strlen` and `strcpy` are total functions returning a fault
where C has undefined behaviour, and every external call the trampoline makes
is appended to a ghost trace.
-/

namespace JsonnetCgo

/-! ## Memory model -/

/-- One `char`.  The value `0` is the string terminator NUL. -/
abbrev Byte := Nat

/-- A C pointer: `NULL`, or an offset into an allocated block. -/
inductive Ptr where
  | null : Ptr
  | addr (block off : Nat) : Ptr
deriving DecidableEq, Repr

/-- The heap: block number `i` is the `i`-th entry; `junk` gives the
indeterminate contents a freshly allocated block starts with. -/
structure Heap where
  blocks : List (List Byte)
  junk : Nat → Byte

deriving instance DecidableEq for Except

/-- The ways an execution can leave defined behaviour. -/
inductive Fault where
  | nullPointer
  | badPointer
  | unterminated
  | overflow
  | overlap
deriving DecidableEq, Repr

/-- The bytes in front of the first NUL of a byte sequence, when there is one. -/
def cstrOf : List Byte → Option (List Byte)
  | [] => none
  | b :: bs => if b = 0 then some [] else (cstrOf bs).map (fun s => b :: s)

/-- The bytes from a pointer to the end of its block. -/
def load (h : Heap) : Ptr → Except Fault (List Byte)
  | Ptr.null => Except.error Fault.nullPointer
  | Ptr.addr b o =>
    match h.blocks[b]? with
    | none => Except.error Fault.badPointer
    | some bs => if o ≤ bs.length then Except.ok (bs.drop o) else Except.error Fault.badPointer

/-- The C string a pointer designates: the bytes up to its first NUL. -/
def cstrAt (h : Heap) (p : Ptr) : Except Fault (List Byte) :=
  match load h p with
  | Except.error e => Except.error e
  | Except.ok bs =>
    match cstrOf bs with
    | none => Except.error Fault.unterminated
    | some s => Except.ok s

/-! ## Ghost trace and machine state -/

/-- The external calls made by the trampoline, in order. -/
inductive Event where
  | go_call_import (vm base rel : Ptr) (baseStr relStr : Option (List Byte))
  | strlen (s : Ptr) (len : Nat)
  | jsonnet_realloc (vm old : Ptr) (sz : Nat) (ret : Ptr)
  | strcpy (dst src : Ptr) (written : Nat)
deriving DecidableEq, Repr

/-- The state a call runs in: the heap, the two cells behind the out-parameters
`found_here` and `success`, and the ghost trace.  The C `int` in `*success` is
only ever compared with zero, so its width plays no part. -/
structure World where
  heap : Heap
  found_here : Ptr
  success : Int
  trace : List Event

/-- A computation that may fault; the state reached is kept in either case. -/
abbrev Exec (α : Type) := World → Except Fault α × World

/-- Sequencing of computations: a fault stops the run. -/
def Exec.bind {α β : Type} (m : Exec α) (f : α → Exec β) : Exec β := fun w =>
  match m w with
  | (Except.error e, w1) => (Except.error e, w1)
  | (Except.ok a, w1) => f a w1

instance : Monad Exec where
  pure a := fun w => (Except.ok a, w)
  bind := Exec.bind

/-! ## The external functions -/

/-- What the host resolver hands back: its return value, the contents of the
cells behind its `path` and `success` out-parameters, and the heap it leaves. -/
structure HostReply where
  result : Ptr
  path : Ptr
  success : Int
  heap : Heap

/-- The host resolver `go_call_import(vm, base, rel, &path, success)`, declared
in bridge.h and implemented on the Go side: an arbitrary function of its
arguments, the current contents of the two cells it may write, and the heap.
It is handed no pointer to the cell `*found_here`, so it cannot change it. -/
abbrev HostFn := (vm base rel path0 : Ptr) → (success0 : Int) → Heap → HostReply

/-- The string at `p` as logged in the trace. -/
def snapshot (h : Heap) (p : Ptr) : Option (List Byte) :=
  match cstrAt h p with
  | Except.ok s => some s
  | Except.error _ => none

/-- The call `go_call_import(vm, base, rel, &path, success)` with `path`
holding `path0`: yields the returned pointer and the new value of `path`. -/
def call_go_call_import (host : HostFn) (vm base rel path0 : Ptr) : Exec (Ptr × Ptr) := fun w =>
  let r := host vm base rel path0 w.success w.heap
  (Except.ok (r.result, r.path),
    { w with
      heap := r.heap
      success := r.success
      trace := w.trace ++ [Event.go_call_import vm base rel (snapshot w.heap base) (snapshot w.heap rel)] })

/-- The libc `strlen`: the number of bytes in front of the first NUL. -/
def strlen (s : Ptr) : Exec Nat := fun w =>
  match cstrAt w.heap s with
  | Except.error e => (Except.error e, w)
  | Except.ok str => (Except.ok str.length, { w with trace := w.trace ++ [Event.strlen s str.length] })

/-- A fresh block of `sz` indeterminate bytes. -/
def freshBlock (h : Heap) (sz : Nat) : List Byte := (List.range sz).map h.junk

/-- Modelled from the spec: `jsonnet_realloc` of libjsonnet, the engine's
allocator, which is not part of bridge.c.  With a NULL old pointer a request of
at least one byte yields a new block of exactly that size and a request of zero
bytes yields NULL; with a non-NULL old pointer the contents move to a new block
of the requested size. -/
def jsonnet_realloc (vm old : Ptr) (sz : Nat) : Exec Ptr := fun w =>
  if sz = 0 then
    (Except.ok Ptr.null, { w with trace := w.trace ++ [Event.jsonnet_realloc vm old sz Ptr.null] })
  else
    let kept : List Byte :=
      match load w.heap old with
      | Except.ok bs => bs.take sz
      | Except.error _ => []
    let ret := Ptr.addr w.heap.blocks.length 0
    (Except.ok ret,
      { w with
        heap := { w.heap with blocks := w.heap.blocks ++ [kept ++ (freshBlock w.heap sz).drop kept.length] }
        trace := w.trace ++ [Event.jsonnet_realloc vm old sz ret] })

/-- The libc `strcpy`: copies the string at `src`, terminator included, to
`dst`, and returns `dst`. -/
def strcpy (dst src : Ptr) : Exec Ptr := fun w =>
  match cstrAt w.heap src with
  | Except.error e => (Except.error e, w)
  | Except.ok str =>
    match dst, src with
    | Ptr.addr db d, Ptr.addr sb s =>
      match w.heap.blocks[db]? with
      | none => (Except.error Fault.badPointer, w)
      | some bs =>
        if bs.length < d + (str.length + 1) then (Except.error Fault.overflow, w)
        else if db = sb ∧ d < s + (str.length + 1) ∧ s < d + (str.length + 1) then
          (Except.error Fault.overlap, w)
        else
          (Except.ok dst,
            { w with
              heap := { w.heap with
                blocks := w.heap.blocks.set db (bs.take d ++ (str ++ [0]) ++ bs.drop (d + (str.length + 1))) }
              trace := w.trace ++ [Event.strcpy dst src (str.length + 1)] })
    | _, _ => (Except.error Fault.nullPointer, w)

/-- Reading the cell `*success`. -/
def read_success : Exec Int := fun w => (Except.ok w.success, w)

/-- The store `*found_here = p`. -/
def write_found_here (p : Ptr) : Exec Unit := fun w => (Except.ok (), { w with found_here := p })

/-! ## The trampoline -/

/-- The function `CallImport_cgo` of bridge.c. -/
def CallImport_cgo (go_call_import : HostFn) (ctx base rel : Ptr) : Exec Ptr := do
  let vm := ctx
  let (result, path) ← call_go_call_import go_call_import vm base rel Ptr.null
  if (← read_success) ≠ 0 then
    let found_here_buf ← jsonnet_realloc vm Ptr.null ((← strlen path) + 1)
    let _ ← strcpy found_here_buf path
    write_found_here found_here_buf
  let buf ← jsonnet_realloc vm Ptr.null ((← strlen result) + 1)
  let _ ← strcpy buf result
  return buf

/-! ## Vocabulary for the statements -/

/-- The answer of the host resolver to the call the trampoline makes in state
`w`: the local `path` holds NULL and `*success` holds its current value. -/
def hostReply (host : HostFn) (ctx base rel : Ptr) (w : World) : HostReply :=
  host ctx base rel Ptr.null w.success w.heap

/-- The state right after the host resolver has returned. -/
def afterHost (host : HostFn) (ctx base rel : Ptr) (w : World) : World :=
  (call_go_call_import host ctx base rel Ptr.null w).2

/-- The state after the string `s` at `src` has been measured, a block of
`s.length + 1` bytes obtained from the engine and `s` copied into it. -/
def copied (vm src : Ptr) (s : List Byte) (w : World) : World :=
  { w with
    heap := { w.heap with blocks := w.heap.blocks ++ [s ++ [0]] }
    trace := w.trace ++
      [Event.strlen src s.length,
       Event.jsonnet_realloc vm Ptr.null (s.length + 1) (Ptr.addr w.heap.blocks.length 0),
       Event.strcpy (Ptr.addr w.heap.blocks.length 0) src (s.length + 1)] }

/-- The closing steps of the trampoline (bridge.c lines 16 to 18): copy the
string at `src` into a new engine block and return the block. -/
def duplicate (vm src : Ptr) : Exec Ptr := do
  let buf ← jsonnet_realloc vm Ptr.null ((← strlen src) + 1)
  let _ ← strcpy buf src
  return buf

/-- The state after the success branch: the path `s` copied and published
through `found_here`. -/
def published (host : HostFn) (ctx base rel : Ptr) (s : List Byte) (w : World) : World :=
  { copied ctx (hostReply host ctx base rel w).path s (afterHost host ctx base rel w) with
    found_here := Ptr.addr (hostReply host ctx base rel w).heap.blocks.length 0 }

/-- The events appended to the trace between state `w` and state `w1`. -/
def during (w w1 : World) : List Event := w1.trace.drop w.trace.length

/-- The event logged for the call of the host resolver. -/
def hostEvent (ctx base rel : Ptr) (w : World) : Event :=
  Event.go_call_import ctx base rel (snapshot w.heap base) (snapshot w.heap rel)

/-- The three events logged while the string `s` at `src` is copied into the
block `buf`. -/
def copyEvents (vm src : Ptr) (s : List Byte) (buf : Ptr) : List Event :=
  [Event.strlen src s.length, Event.jsonnet_realloc vm Ptr.null (s.length + 1) buf,
   Event.strcpy buf src (s.length + 1)]

/-- Recognises the allocator requests in a trace. -/
def Event.isAlloc : Event → Bool
  | Event.jsonnet_realloc _ _ _ _ => true
  | _ => false

/-- Recognises the host resolver calls in a trace. -/
def Event.isHostCall : Event → Bool
  | Event.go_call_import _ _ _ _ _ => true
  | _ => false

/-- The allocator requests of a trace, in order. -/
def allocations (tr : List Event) : List Event := tr.filter Event.isAlloc

/-- The host resolver calls of a trace, in order. -/
def hostCalls (tr : List Event) : List Event := tr.filter Event.isHostCall

/-- The byte `i` places after the pointer `p`, when that is inside the block. -/
def byteAt (h : Heap) (p : Ptr) (i : Nat) : Option Byte :=
  match load h p with
  | Except.ok bs => bs[i]?
  | Except.error _ => none

/-- The host `host`, except that it stores `p` through its `path` out-parameter. -/
def storingPath (host : HostFn) (p : Ptr) : HostFn := fun vm base rel path0 success0 h =>
  { host vm base rel path0 success0 h with path := p }

/-- A host resolver is deterministic when its answer (the flag, the result
string and, on success, the path string) depends only on the handle and on the
base and relative path strings. -/
def DeterministicHost (host : HostFn) : Prop :=
  ∀ (vm base rel p0 p1 : Ptr) (s0 s1 : Int) (h0 h1 : Heap),
    snapshot h0 base = snapshot h1 base → snapshot h0 rel = snapshot h1 rel →
    (host vm base rel p0 s0 h0).success = (host vm base rel p1 s1 h1).success ∧
    snapshot (host vm base rel p0 s0 h0).heap (host vm base rel p0 s0 h0).result =
      snapshot (host vm base rel p1 s1 h1).heap (host vm base rel p1 s1 h1).result ∧
    ((host vm base rel p0 s0 h0).success ≠ 0 →
      snapshot (host vm base rel p0 s0 h0).heap (host vm base rel p0 s0 h0).path =
        snapshot (host vm base rel p1 s1 h1).heap (host vm base rel p1 s1 h1).path)

/-! ## Concrete scenarios -/

/-- The bytes of "/a/b.ext". -/
def baseBytes : List Byte := [47, 97, 47, 98, 46, 101, 120, 116]

/-- The bytes of "c.ext". -/
def relBytes : List Byte := [99, 46, 101, 120, 116]

/-- The bytes of "/a/c.ext". -/
def foundBytes : List Byte := [47, 97, 47, 99, 46, 101, 120, 116]

/-- The bytes of "hello". -/
def helloBytes : List Byte := [104, 101, 108, 108, 111]

/-- The bytes of "couldn't open import missing.ext". -/
def diagBytes : List Byte :=
  [99, 111, 117, 108, 100, 110, 39, 116, 32, 111, 112, 101, 110, 32, 105, 109, 112, 111, 114, 116, 32,
   109, 105, 115, 115, 105, 110, 103, 46, 101, 120, 116]

/-- An engine heap holding the base path in block 0 and the relative path in
block 1; fresh memory is filled with the byte 170. -/
def heap0 : Heap := { blocks := [baseBytes ++ [0], relBytes ++ [0]], junk := fun _ => 170 }

/-- An engine state before the call: `*found_here` holds a stale pointer and
`*success` holds 0. -/
def world0 : World := { heap := heap0, found_here := Ptr.addr 77 0, success := 0, trace := [] }

/-- The context handle used in the scenarios. -/
def ctx0 : Ptr := Ptr.addr 9 0

/-- The base path argument of the scenarios: the string in block 0. -/
def base0 : Ptr := Ptr.addr 0 0

/-- The relative path argument of the scenarios: the string in block 1. -/
def rel0 : Ptr := Ptr.addr 1 0

/-- A host that answers with the given content, path and flag, each string in
a block of its own. -/
def okHost (content path : List Byte) (flag : Int) : HostFn := fun _ _ _ _ _ h =>
  { result := Ptr.addr h.blocks.length 0
    path := Ptr.addr (h.blocks.length + 1) 0
    success := flag
    heap := { h with blocks := h.blocks ++ [content ++ [0], path ++ [0]] } }

/-- A host that reports failure with a diagnostic and leaves `path` unset. -/
def failHost (msg : List Byte) : HostFn := fun _ _ _ path0 _ h =>
  { result := Ptr.addr h.blocks.length 0
    path := path0
    success := 0
    heap := { h with blocks := h.blocks ++ [msg ++ [0]] } }

/-- A host that reports success with the given content but leaves `path` unset. -/
def pathlessHost (content : List Byte) : HostFn := fun _ _ _ path0 _ h =>
  { result := Ptr.addr h.blocks.length 0
    path := path0
    success := 1
    heap := { h with blocks := h.blocks ++ [content ++ [0]] } }

/-! ## C strings in the heap -/

theorem cstrOf_sound : ∀ (bs s : List Byte), cstrOf bs = some s →
    (∀ b ∈ s, b ≠ 0) ∧ ∃ rest, bs = s ++ 0 :: rest
  | [], s, h => by simp [cstrOf] at h
  | b :: bs, s, h => by
    unfold cstrOf at h
    split at h
    · rename_i hb
      simp at h
      subst h; subst hb
      exact ⟨by simp, bs, by simp⟩
    · rename_i hb
      cases hc : cstrOf bs with
      | none => simp [hc] at h
      | some s1 =>
        simp [hc] at h
        subst h
        obtain ⟨h1, rest, h2⟩ := cstrOf_sound bs s1 hc
        refine ⟨?_, rest, by simp [h2]⟩
        intro x hx
        rcases List.mem_cons.1 hx with rfl | hx
        · exact hb
        · exact h1 x hx

theorem cstrOf_complete : ∀ (s rest : List Byte), (∀ b ∈ s, b ≠ 0) → cstrOf (s ++ 0 :: rest) = some s
  | [], rest, _ => by simp [cstrOf]
  | b :: s, rest, h => by
    have hb : b ≠ 0 := h b (by simp)
    have ih := cstrOf_complete s rest (fun x hx => h x (by simp [hx]))
    simp [cstrOf, hb, ih]

theorem cstrAt_addr {h : Heap} {p : Ptr} {s : List Byte} (hs : cstrAt h p = Except.ok s) :
    ∃ b o bs, p = Ptr.addr b o ∧ h.blocks[b]? = some bs ∧ o ≤ bs.length ∧ cstrOf (bs.drop o) = some s := by
  cases p with
  | null => simp [cstrAt, load] at hs
  | addr b o =>
    refine ⟨b, o, ?_⟩
    unfold cstrAt load at hs
    cases hb : h.blocks[b]? with
    | none => simp [hb] at hs
    | some bs =>
      refine ⟨bs, rfl, rfl, ?_⟩
      simp only [hb] at hs
      split at hs
      · simp at hs
      · rename_i bs1 heq
        split at heq
        · simp at heq
          subst heq
          rename_i hle
          refine ⟨hle, ?_⟩
          split at hs
          · simp at hs
          · rename_i s1 hc
            simp at hs
            subst hs
            exact hc
        · simp at heq


theorem cstrAt_intro {h : Heap} {b o : Nat} {c s : List Byte} (hb : h.blocks[b]? = some c)
    (ho : o ≤ c.length) (hc : cstrOf (c.drop o) = some s) : cstrAt h (Ptr.addr b o) = Except.ok s := by
  simp [cstrAt, load, hb, ho, hc]

/-- A string of the old heap is still there after a block is appended. -/
theorem cstrAt_grow {bl : List (List Byte)} {j k : Nat → Byte} {p : Ptr} {s : List Byte} (blk : List Byte)
    (hs : cstrAt ⟨bl, j⟩ p = Except.ok s) : cstrAt ⟨bl ++ [blk], k⟩ p = Except.ok s := by
  obtain ⟨b, o, bs, rfl, hb, ho, hc⟩ := cstrAt_addr hs
  have hlt : b < bl.length := by
    by_contra hge
    have : bl[b]? = none := List.getElem?_eq_none (by simpa using hge)
    simp [this] at hb
  have hb2 : (bl ++ [blk])[b]? = some bs := by
    rw [List.getElem?_append_left hlt]; exact hb
  exact cstrAt_intro hb2 ho hc

theorem cstrAt_last {bl : List (List Byte)} {j : Nat → Byte} {s : List Byte} (hz : ∀ b ∈ s, b ≠ 0) :
    cstrAt ⟨bl ++ [s ++ [0]], j⟩ (Ptr.addr bl.length 0) = Except.ok s := by
  have hb : (bl ++ [s ++ [0]])[bl.length]? = some (s ++ [0]) := by simp
  exact cstrAt_intro hb (Nat.zero_le _) (by simpa using cstrOf_complete s [] hz)

theorem cstrAt_nonzero {h : Heap} {p : Ptr} {s : List Byte} (hs : cstrAt h p = Except.ok s) :
    ∀ b ∈ s, b ≠ 0 := by
  obtain ⟨_, _, _, _, _, _, hc⟩ := cstrAt_addr hs
  exact (cstrOf_sound _ _ hc).1

theorem bind_run {α β : Type} (m : Exec α) (f : α → Exec β) (w : World) :
    (m >>= f) w = match m w with
      | (Except.error e, w1) => (Except.error e, w1)
      | (Except.ok a, w1) => f a w1 := rfl

theorem pure_run {α : Type} (a : α) (w : World) : (pure a : Exec α) w = (Except.ok a, w) := rfl

theorem strlen_ok {w : World} {p : Ptr} {s : List Byte} (h : cstrAt w.heap p = Except.ok s) :
    strlen p w = (Except.ok s.length, { w with trace := w.trace ++ [Event.strlen p s.length] }) := by
  simp [strlen, h]

theorem strlen_fault {w : World} {p : Ptr} {e : Fault} (h : cstrAt w.heap p = Except.error e) :
    strlen p w = (Except.error e, w) := by
  simp [strlen, h]

theorem jsonnet_realloc_fresh (vm : Ptr) (n : Nat) (w : World) :
    jsonnet_realloc vm Ptr.null (n + 1) w =
      (Except.ok (Ptr.addr w.heap.blocks.length 0),
        { w with
          heap := { w.heap with blocks := w.heap.blocks ++ [freshBlock w.heap (n + 1)] }
          trace := w.trace ++ [Event.jsonnet_realloc vm Ptr.null (n + 1) (Ptr.addr w.heap.blocks.length 0)] }) := by
  simp [jsonnet_realloc, load]

theorem strcpy_fresh {bl : List (List Byte)} {j : Nat → Byte} (blk : List Byte) {s : List Byte} {src : Ptr}
    (fh : Ptr) (sc : Int)
    (tr : List Event) (hlen : blk.length = s.length + 1) (hs : cstrAt ⟨bl, j⟩ src = Except.ok s) :
    strcpy (Ptr.addr bl.length 0) src ⟨⟨bl ++ [blk], j⟩, fh, sc, tr⟩ =
      (Except.ok (Ptr.addr bl.length 0),
        ⟨⟨bl ++ [s ++ [0]], j⟩, fh, sc, tr ++ [Event.strcpy (Ptr.addr bl.length 0) src (s.length + 1)]⟩) := by
  have hs2 := cstrAt_grow (k := j) blk hs
  obtain ⟨b, o, bs, rfl, hb, ho, hc⟩ := cstrAt_addr hs
  have hlt : b < bl.length := by
    by_contra hge
    have : bl[b]? = none := List.getElem?_eq_none (by simpa using hge)
    simp [this] at hb
  have hne : bl.length ≠ b := by omega
  simp [strcpy, hs2, hlen, hne]


theorem freshBlock_length (h : Heap) (n : Nat) : (freshBlock h n).length = n := by
  simp [freshBlock]

/-- The three steps `strlen`, `jsonnet_realloc`, `strcpy` on a valid source string. -/
theorem dup_run {β : Type} (vm src : Ptr) (k : Ptr → Ptr → Exec β) {w : World} {s : List Byte}
    (hs : cstrAt w.heap src = Except.ok s) :
    (strlen src >>= fun n => jsonnet_realloc vm Ptr.null (n + 1) >>= fun buf =>
      strcpy buf src >>= fun x => k buf x) w
      = k (Ptr.addr w.heap.blocks.length 0) (Ptr.addr w.heap.blocks.length 0) (copied vm src s w) := by
  obtain ⟨⟨bl, j⟩, fh, sc, tr⟩ := w
  have h1 := strcpy_fresh (freshBlock ⟨bl, j⟩ (s.length + 1)) fh sc
    (tr ++ [Event.strlen src s.length] ++
      [Event.jsonnet_realloc vm Ptr.null (s.length + 1) (Ptr.addr bl.length 0)])
    (freshBlock_length _ _) hs
  simp only [bind_run, strlen_ok hs, jsonnet_realloc_fresh]
  simp only [List.append_assoc] at h1 ⊢
  simp only [h1, copied]
  simp

theorem dup_fault {β : Type} (vm src : Ptr) (k : Ptr → Ptr → Exec β) {w : World} {e : Fault}
    (hs : cstrAt w.heap src = Except.error e) :
    (strlen src >>= fun n => jsonnet_realloc vm Ptr.null (n + 1) >>= fun buf =>
      strcpy buf src >>= fun x => k buf x) w = (Except.error e, w) := by
  simp only [bind_run, strlen_fault hs]


theorem duplicate_ok (vm src : Ptr) {w : World} {s : List Byte} (hs : cstrAt w.heap src = Except.ok s) :
    duplicate vm src w = (Except.ok (Ptr.addr w.heap.blocks.length 0), copied vm src s w) :=
  dup_run vm src (fun buf _ => pure buf) hs

theorem duplicate_fault (vm src : Ptr) {w : World} {e : Fault} (hs : cstrAt w.heap src = Except.error e) :
    duplicate vm src w = (Except.error e, w) :=
  dup_fault vm src (fun buf _ => pure buf) hs

theorem CallImport_cgo_of_failure (host : HostFn) (ctx base rel : Ptr) (w : World)
    (h0 : (hostReply host ctx base rel w).success = 0) :
    CallImport_cgo host ctx base rel w =
      duplicate ctx (hostReply host ctx base rel w).result (afterHost host ctx base rel w) := by
  have h0c : (host ctx base rel Ptr.null w.success w.heap).success = 0 := h0
  unfold CallImport_cgo
  simp only [bind_run, call_go_call_import, read_success, h0c, ne_eq, not_true_eq_false, if_false]
  simp only [duplicate, afterHost, hostReply, call_go_call_import, h0c, bind_run, pure_run]

theorem CallImport_cgo_of_success (host : HostFn) (ctx base rel : Ptr) (w : World) {s : List Byte}
    (h1 : (hostReply host ctx base rel w).success ≠ 0)
    (hp : cstrAt (hostReply host ctx base rel w).heap (hostReply host ctx base rel w).path = Except.ok s) :
    CallImport_cgo host ctx base rel w =
      duplicate ctx (hostReply host ctx base rel w).result (published host ctx base rel s w) := by
  have h1c : (host ctx base rel Ptr.null w.success w.heap).success ≠ 0 := h1
  unfold CallImport_cgo
  simp only [bind_run, call_go_call_import, read_success]
  simp only [ne_eq, h1c, not_false_eq_true, if_true]
  show (strlen (hostReply host ctx base rel w).path >>= fun n =>
      jsonnet_realloc ctx Ptr.null (n + 1) >>= fun buf =>
      strcpy buf (hostReply host ctx base rel w).path >>= fun _ =>
      (write_found_here buf >>= fun _ => duplicate ctx (hostReply host ctx base rel w).result))
    (afterHost host ctx base rel w) = _
  rw [dup_run ctx _ _ (show cstrAt (afterHost host ctx base rel w).heap _ = _ from hp)]
  rfl

theorem CallImport_cgo_of_path_fault (host : HostFn) (ctx base rel : Ptr) (w : World) {e : Fault}
    (h1 : (hostReply host ctx base rel w).success ≠ 0)
    (hp : cstrAt (hostReply host ctx base rel w).heap (hostReply host ctx base rel w).path = Except.error e) :
    CallImport_cgo host ctx base rel w = (Except.error e, afterHost host ctx base rel w) := by
  have h1c : (host ctx base rel Ptr.null w.success w.heap).success ≠ 0 := h1
  unfold CallImport_cgo
  simp only [bind_run, call_go_call_import, read_success]
  simp only [ne_eq, h1c, not_false_eq_true, if_true]
  show (strlen (hostReply host ctx base rel w).path >>= fun n =>
      jsonnet_realloc ctx Ptr.null (n + 1) >>= fun buf =>
      strcpy buf (hostReply host ctx base rel w).path >>= fun _ =>
      (write_found_here buf >>= fun _ => duplicate ctx (hostReply host ctx base rel w).result))
    (afterHost host ctx base rel w) = _
  rw [dup_fault ctx _ _ (show cstrAt (afterHost host ctx base rel w).heap _ = _ from hp)]


/-! ## The paths through the trampoline -/

theorem afterHost_heap (host : HostFn) (ctx base rel : Ptr) (w : World) :
    (afterHost host ctx base rel w).heap = (hostReply host ctx base rel w).heap := rfl

theorem published_heap (host : HostFn) (ctx base rel : Ptr) (s : List Byte) (w : World) :
    (published host ctx base rel s w).heap =
      ⟨(hostReply host ctx base rel w).heap.blocks ++ [s ++ [0]], (hostReply host ctx base rel w).heap.junk⟩ := rfl

/-- A string the host left in its heap is still there once the path is published. -/
theorem cstrAt_published (host : HostFn) (ctx base rel : Ptr) (s : List Byte) (w : World) {p : Ptr}
    {t : List Byte} (ht : cstrAt (hostReply host ctx base rel w).heap p = Except.ok t) :
    cstrAt (published host ctx base rel s w).heap p = Except.ok t := by
  rw [published_heap]
  exact cstrAt_grow (j := (hostReply host ctx base rel w).heap.junk) _ ht

/-- The run on a failed resolution with a valid diagnostic. -/
theorem CallImport_cgo_contract_failure (host : HostFn) (ctx base rel : Ptr) (w : World) {t : List Byte}
    (h0 : (hostReply host ctx base rel w).success = 0)
    (ht : cstrAt (hostReply host ctx base rel w).heap (hostReply host ctx base rel w).result = Except.ok t) :
    CallImport_cgo host ctx base rel w =
      (Except.ok (Ptr.addr (hostReply host ctx base rel w).heap.blocks.length 0),
        copied ctx (hostReply host ctx base rel w).result t (afterHost host ctx base rel w)) := by
  rw [CallImport_cgo_of_failure host ctx base rel w h0]
  exact duplicate_ok ctx _ (w := afterHost host ctx base rel w) ht

/-- The run on a successful resolution with valid path and content. -/
theorem CallImport_cgo_contract_success (host : HostFn) (ctx base rel : Ptr) (w : World) {s t : List Byte}
    (h1 : (hostReply host ctx base rel w).success ≠ 0)
    (hp : cstrAt (hostReply host ctx base rel w).heap (hostReply host ctx base rel w).path = Except.ok s)
    (ht : cstrAt (hostReply host ctx base rel w).heap (hostReply host ctx base rel w).result = Except.ok t) :
    CallImport_cgo host ctx base rel w =
      (Except.ok (Ptr.addr ((hostReply host ctx base rel w).heap.blocks.length + 1) 0),
        copied ctx (hostReply host ctx base rel w).result t (published host ctx base rel s w)) := by
  rw [CallImport_cgo_of_success host ctx base rel w h1 hp]
  have := duplicate_ok ctx _ (cstrAt_published host ctx base rel s w ht)
  rw [this, published_heap]
  simp

/-- Every run of the trampoline follows one of five paths. -/
theorem CallImport_cgo_cases (host : HostFn) (ctx base rel : Ptr) (w : World) :
    ((hostReply host ctx base rel w).success = 0 ∧ ∃ t,
        cstrAt (hostReply host ctx base rel w).heap (hostReply host ctx base rel w).result = Except.ok t ∧
        CallImport_cgo host ctx base rel w =
          (Except.ok (Ptr.addr (hostReply host ctx base rel w).heap.blocks.length 0),
            copied ctx (hostReply host ctx base rel w).result t (afterHost host ctx base rel w))) ∨
    ((hostReply host ctx base rel w).success = 0 ∧ ∃ e,
        CallImport_cgo host ctx base rel w = (Except.error e, afterHost host ctx base rel w)) ∨
    ((hostReply host ctx base rel w).success ≠ 0 ∧ ∃ e,
        CallImport_cgo host ctx base rel w = (Except.error e, afterHost host ctx base rel w)) ∨
    ((hostReply host ctx base rel w).success ≠ 0 ∧ ∃ s t,
        cstrAt (hostReply host ctx base rel w).heap (hostReply host ctx base rel w).path = Except.ok s ∧
        cstrAt (published host ctx base rel s w).heap (hostReply host ctx base rel w).result = Except.ok t ∧
        CallImport_cgo host ctx base rel w =
          (Except.ok (Ptr.addr ((hostReply host ctx base rel w).heap.blocks.length + 1) 0),
            copied ctx (hostReply host ctx base rel w).result t (published host ctx base rel s w))) ∨
    ((hostReply host ctx base rel w).success ≠ 0 ∧ ∃ s e,
        cstrAt (hostReply host ctx base rel w).heap (hostReply host ctx base rel w).path = Except.ok s ∧
        CallImport_cgo host ctx base rel w = (Except.error e, published host ctx base rel s w)) := by
  by_cases h0 : (hostReply host ctx base rel w).success = 0
  · cases ht : cstrAt (hostReply host ctx base rel w).heap (hostReply host ctx base rel w).result with
    | ok t => exact Or.inl ⟨h0, t, rfl, CallImport_cgo_contract_failure host ctx base rel w h0 ht⟩
    | error e =>
      refine Or.inr (Or.inl ⟨h0, e, ?_⟩)
      rw [CallImport_cgo_of_failure host ctx base rel w h0]
      exact duplicate_fault ctx _ (w := afterHost host ctx base rel w) ht
  · cases hp : cstrAt (hostReply host ctx base rel w).heap (hostReply host ctx base rel w).path with
    | error e =>
      exact Or.inr (Or.inr (Or.inl ⟨h0, e, CallImport_cgo_of_path_fault host ctx base rel w h0 hp⟩))
    | ok s =>
      cases ht : cstrAt (published host ctx base rel s w).heap (hostReply host ctx base rel w).result with
      | ok t =>
        refine Or.inr (Or.inr (Or.inr (Or.inl ⟨h0, s, t, rfl, ht, ?_⟩)))
        rw [CallImport_cgo_of_success host ctx base rel w h0 hp, duplicate_ok ctx _ ht, published_heap]
        simp
      | error e =>
        refine Or.inr (Or.inr (Or.inr (Or.inr ⟨h0, s, e, rfl, ?_⟩)))
        rw [CallImport_cgo_of_success host ctx base rel w h0 hp]
        exact duplicate_fault ctx _ ht

/-! ## The trace of a run -/

theorem during_afterHost (host : HostFn) (ctx base rel : Ptr) (w : World) :
    during w (afterHost host ctx base rel w) = [hostEvent ctx base rel w] := by
  simp [during, afterHost, call_go_call_import, hostEvent]

theorem during_published (host : HostFn) (ctx base rel : Ptr) (s : List Byte) (w : World) :
    during w (published host ctx base rel s w) =
      hostEvent ctx base rel w ::
        copyEvents ctx (hostReply host ctx base rel w).path s
          (Ptr.addr (hostReply host ctx base rel w).heap.blocks.length 0) := by
  simp [during, published, copied, afterHost, call_go_call_import, hostEvent, copyEvents, hostReply]

theorem during_copied_afterHost (host : HostFn) (ctx base rel : Ptr) (t : List Byte) (src : Ptr) (w : World) :
    during w (copied ctx src t (afterHost host ctx base rel w)) =
      hostEvent ctx base rel w ::
        copyEvents ctx src t (Ptr.addr (hostReply host ctx base rel w).heap.blocks.length 0) := by
  simp [during, copied, afterHost, call_go_call_import, hostEvent, copyEvents, hostReply]

theorem during_copied_published (host : HostFn) (ctx base rel : Ptr) (s t : List Byte) (src : Ptr) (w : World) :
    during w (copied ctx src t (published host ctx base rel s w)) =
      hostEvent ctx base rel w ::
        (copyEvents ctx (hostReply host ctx base rel w).path s
            (Ptr.addr (hostReply host ctx base rel w).heap.blocks.length 0) ++
          copyEvents ctx src t (Ptr.addr ((hostReply host ctx base rel w).heap.blocks.length + 1) 0)) := by
  simp [during, published, copied, afterHost, call_go_call_import, hostEvent, copyEvents, hostReply]

/-- The copy made by `copied` holds the string that was copied. -/
theorem cstrAt_copied (vm src : Ptr) {s : List Byte} (w : World) (hz : ∀ b ∈ s, b ≠ 0) :
    cstrAt (copied vm src s w).heap (Ptr.addr w.heap.blocks.length 0) = Except.ok s :=
  cstrAt_last (j := w.heap.junk) hz

/-- A string of the heap before `copied` is still there afterwards. -/
theorem cstrAt_copied_old (vm src : Ptr) (s : List Byte) (w : World) {p : Ptr} {t : List Byte}
    (ht : cstrAt w.heap p = Except.ok t) : cstrAt (copied vm src s w).heap p = Except.ok t :=
  cstrAt_grow (j := w.heap.junk) (k := w.heap.junk) (s ++ [0]) ht

theorem published_length (host : HostFn) (ctx base rel : Ptr) (s : List Byte) (w : World) :
    (published host ctx base rel s w).heap.blocks.length =
      (hostReply host ctx base rel w).heap.blocks.length + 1 := by
  simp [published_heap]

/-- The block published through `found_here` holds the path string. -/
theorem cstrAt_published_new (host : HostFn) (ctx base rel : Ptr) {s : List Byte} (w : World)
    (hz : ∀ b ∈ s, b ≠ 0) :
    cstrAt (published host ctx base rel s w).heap
      (Ptr.addr (hostReply host ctx base rel w).heap.blocks.length 0) = Except.ok s := by
  rw [published_heap]
  exact cstrAt_last hz

/-- The byte that follows a C string is its terminator. -/
theorem byteAt_of_cstrAt {h : Heap} {p : Ptr} {s : List Byte} (hs : cstrAt h p = Except.ok s) :
    byteAt h p s.length = some 0 := by
  obtain ⟨b, o, bs, rfl, hb, ho, hc⟩ := cstrAt_addr hs
  obtain ⟨-, rest, hrest⟩ := cstrOf_sound _ _ hc
  have hget : (s ++ 0 :: rest)[s.length]? = some 0 := by
    rw [List.getElem?_append_right (Nat.le_refl _)]
    simp
  simp only [byteAt, load, hb, ho, if_true, hrest]
  exact hget

/-- An allocator request in a trace that starts with the host call lies behind it. -/
theorem alloc_mem_tail {vm old ret ctx base rel : Ptr} {sz : Nat} {w : World} {l : List Event}
    (h : Event.jsonnet_realloc vm old sz ret ∈ hostEvent ctx base rel w :: l) :
    Event.jsonnet_realloc vm old sz ret ∈ l := by
  simpa [hostEvent] using h

/-- The allocator requests among the events of one copy. -/
theorem alloc_of_mem_copyEvents {vm src buf vm1 old ret : Ptr} {s : List Byte} {sz : Nat}
    (h : Event.jsonnet_realloc vm1 old sz ret ∈ copyEvents vm src s buf) :
    vm1 = vm ∧ old = Ptr.null ∧ sz = s.length + 1 ∧ ret = buf := by
  simpa [copyEvents] using h

/-- A logged string is a string of the heap. -/
theorem cstrAt_of_snapshot {h : Heap} {p : Ptr} {s : List Byte} (hs : snapshot h p = some s) :
    cstrAt h p = Except.ok s := by
  unfold snapshot at hs
  cases hc : cstrAt h p with
  | ok s1 =>
    simp only [hc, Option.some.injEq] at hs
    rw [hs]
  | error e => simp [hc] at hs

theorem snapshot_of_cstrAt {h : Heap} {p : Ptr} {s : List Byte} (hs : cstrAt h p = Except.ok s) :
    snapshot h p = some s := by
  simp [snapshot, hs]

/-- A pointer to a C string lies in a block of the heap. -/
theorem block_lt_of_cstrAt {h : Heap} {p : Ptr} {s : List Byte} (hs : cstrAt h p = Except.ok s) :
    ∃ b o, p = Ptr.addr b o ∧ b < h.blocks.length := by
  obtain ⟨b, o, bs, rfl, hb, -, -⟩ := cstrAt_addr hs
  refine ⟨b, o, rfl, ?_⟩
  by_contra hge
  have : h.blocks[b]? = none := List.getElem?_eq_none (by simpa using hge)
  simp [this] at hb

/-- A block beyond the heap is not one a C string of the heap lies in. -/
theorem fresh_ne_of_cstrAt {h : Heap} {p : Ptr} {s : List Byte} (hs : cstrAt h p = Except.ok s)
    {n : Nat} (hn : h.blocks.length ≤ n) (o : Nat) : Ptr.addr n o ≠ p := by
  obtain ⟨b, o1, rfl, hlt⟩ := block_lt_of_cstrAt hs
  intro heq
  injection heq with h1 h2
  omega

/-- A pointer beyond the heap points into no block. -/
theorem load_fresh (h : Heap) {n : Nat} (hn : h.blocks.length ≤ n) (o : Nat) :
    load h (Ptr.addr n o) = Except.error Fault.badPointer := by
  have : h.blocks[n]? = none := List.getElem?_eq_none hn
  simp [load, this]

/-- The answer of `okHost` holds its content and its path, whatever the heap. -/
theorem okHost_strings (flag : Int) (vm base rel p0 : Ptr) (s0 : Int) (h : Heap) :
    snapshot (okHost helloBytes foundBytes flag vm base rel p0 s0 h).heap
        (okHost helloBytes foundBytes flag vm base rel p0 s0 h).result = some helloBytes ∧
      snapshot (okHost helloBytes foundBytes flag vm base rel p0 s0 h).heap
        (okHost helloBytes foundBytes flag vm base rel p0 s0 h).path = some foundBytes := by
  constructor
  · apply snapshot_of_cstrAt
    refine cstrAt_intro (c := helloBytes ++ [0]) ?_ (Nat.zero_le _) (by decide)
    show (h.blocks ++ [helloBytes ++ [0], foundBytes ++ [0]])[h.blocks.length]? = _
    rw [List.getElem?_append_right (Nat.le_refl _)]
    simp
  · apply snapshot_of_cstrAt
    refine cstrAt_intro (c := foundBytes ++ [0]) ?_ (Nat.zero_le _) (by decide)
    show (h.blocks ++ [helloBytes ++ [0], foundBytes ++ [0]])[h.blocks.length + 1]? = _
    rw [List.getElem?_append_right (Nat.le_succ _)]
    simp

theorem okHost_deterministic (flag : Int) : DeterministicHost (okHost helloBytes foundBytes flag) := by
  intro vm base rel p0 p1 s0 s1 h0 h1 _ _
  refine ⟨rfl, ?_, fun _ => ?_⟩
  · rw [(okHost_strings flag vm base rel p0 s0 h0).1, (okHost_strings flag vm base rel p1 s1 h1).1]
  · rw [(okHost_strings flag vm base rel p0 s0 h0).2, (okHost_strings flag vm base rel p1 s1 h1).2]

/-! ## The claims -/

/-- C1, as stated, fails: a host that reports success with the valid content
"hello" but leaves `path` unset (NULL) makes `strlen(path)` fault, so the
trampoline returns no string at all. -/
theorem CallImport_cgo_pathless_success_faults :
    (hostReply (pathlessHost helloBytes) ctx0 base0 rel0 world0).success = 1 ∧
    cstrAt (hostReply (pathlessHost helloBytes) ctx0 base0 rel0 world0).heap
      (hostReply (pathlessHost helloBytes) ctx0 base0 rel0 world0).result = Except.ok helloBytes ∧
    (CallImport_cgo (pathlessHost helloBytes) ctx0 base0 rel0 world0).1 = Except.error Fault.nullPointer ∧
    ¬ ∃ ret w1, CallImport_cgo (pathlessHost helloBytes) ctx0 base0 rel0 world0 = (Except.ok ret, w1) ∧
        cstrAt w1.heap ret = Except.ok helloBytes := by
  refine ⟨by decide, by decide, by decide, ?_⟩
  rintro ⟨ret, w1, h, -⟩
  have h1 : (CallImport_cgo (pathlessHost helloBytes) ctx0 base0 rel0 world0).1 =
      Except.error Fault.nullPointer := by decide
  rw [h] at h1
  exact absurd h1 (by simp)

/-- C1, amended: when the host's result is a non-null C string `t` and, in case
the success flag is nonzero, its path is a non-null C string too, the
trampoline returns a pointer to a C string whose bytes are exactly `t`,
whether the flag is zero or not. -/
theorem CallImport_cgo_returns_result (host : HostFn) (ctx base rel : Ptr) (w : World) (t : List Byte)
    (ht : cstrAt (hostReply host ctx base rel w).heap (hostReply host ctx base rel w).result = Except.ok t)
    (hp : (hostReply host ctx base rel w).success ≠ 0 →
      ∃ s, cstrAt (hostReply host ctx base rel w).heap (hostReply host ctx base rel w).path = Except.ok s) :
    ∃ ret w1, CallImport_cgo host ctx base rel w = (Except.ok ret, w1) ∧
      cstrAt w1.heap ret = Except.ok t := by
  have hz := cstrAt_nonzero ht
  by_cases h0 : (hostReply host ctx base rel w).success = 0
  · exact ⟨_, _, CallImport_cgo_contract_failure host ctx base rel w h0 ht,
      cstrAt_copied ctx _ (afterHost host ctx base rel w) hz⟩
  · obtain ⟨s, hs⟩ := hp h0
    refine ⟨_, _, CallImport_cgo_contract_success host ctx base rel w h0 hs ht, ?_⟩
    rw [← published_length host ctx base rel s w]
    exact cstrAt_copied ctx _ (published host ctx base rel s w) hz

/-- The first scenario of the spec: content "hello" found at "/a/c.ext" is
returned as "hello". -/
theorem CallImport_cgo_returns_result_witness :
    cstrAt (hostReply (okHost helloBytes foundBytes 1) ctx0 base0 rel0 world0).heap
      (hostReply (okHost helloBytes foundBytes 1) ctx0 base0 rel0 world0).result = Except.ok helloBytes ∧
    ∃ ret w1, CallImport_cgo (okHost helloBytes foundBytes 1) ctx0 base0 rel0 world0 = (Except.ok ret, w1) ∧
      cstrAt w1.heap ret = Except.ok helloBytes :=
  ⟨by decide,
    CallImport_cgo_returns_result (okHost helloBytes foundBytes 1) ctx0 base0 rel0 world0 helloBytes
      (by decide) (fun _ => ⟨foundBytes, by decide⟩)⟩

/-- C2: when the host sets the success flag to any nonzero value and its path
is a non-null C string `s` (possibly empty), then after the run `*found_here`
holds the pointer returned by a `jsonnet_realloc` request of `s.length + 1`
bytes made during the run, that pointer is the first block beyond the heap the
host left, and the string it designates is exactly `s`.  This holds whatever
the host's result is; when the result is a C string too the run returns. -/
theorem CallImport_cgo_publishes_path (host : HostFn) (ctx base rel : Ptr) (w : World) (s : List Byte)
    (h1 : (hostReply host ctx base rel w).success ≠ 0)
    (hp : cstrAt (hostReply host ctx base rel w).heap (hostReply host ctx base rel w).path = Except.ok s) :
    (CallImport_cgo host ctx base rel w).2.found_here =
        Ptr.addr (hostReply host ctx base rel w).heap.blocks.length 0 ∧
      cstrAt (CallImport_cgo host ctx base rel w).2.heap (CallImport_cgo host ctx base rel w).2.found_here =
        Except.ok s ∧
      Event.jsonnet_realloc ctx Ptr.null (s.length + 1) (CallImport_cgo host ctx base rel w).2.found_here ∈
        during w (CallImport_cgo host ctx base rel w).2 ∧
      (∀ t, cstrAt (hostReply host ctx base rel w).heap (hostReply host ctx base rel w).result = Except.ok t →
        ∃ ret, (CallImport_cgo host ctx base rel w).1 = Except.ok ret) := by
  have hz := cstrAt_nonzero hp
  have hnew := cstrAt_published_new host ctx base rel w hz
  refine ⟨?_, ?_, ?_, ?_⟩
  · cases ht : cstrAt (published host ctx base rel s w).heap (hostReply host ctx base rel w).result with
    | ok t =>
      rw [CallImport_cgo_of_success host ctx base rel w h1 hp, duplicate_ok ctx _ ht]
      rfl
    | error e =>
      rw [CallImport_cgo_of_success host ctx base rel w h1 hp, duplicate_fault ctx _ ht]
      rfl
  · cases ht : cstrAt (published host ctx base rel s w).heap (hostReply host ctx base rel w).result with
    | ok t =>
      rw [CallImport_cgo_of_success host ctx base rel w h1 hp, duplicate_ok ctx _ ht]
      exact cstrAt_copied_old ctx _ t (published host ctx base rel s w) hnew
    | error e =>
      rw [CallImport_cgo_of_success host ctx base rel w h1 hp, duplicate_fault ctx _ ht]
      exact hnew
  · cases ht : cstrAt (published host ctx base rel s w).heap (hostReply host ctx base rel w).result with
    | ok t =>
      rw [CallImport_cgo_of_success host ctx base rel w h1 hp, duplicate_ok ctx _ ht]
      show _ ∈ during w (copied ctx _ t (published host ctx base rel s w))
      rw [during_copied_published]
      simp [copyEvents, copied, published]
    | error e =>
      rw [CallImport_cgo_of_success host ctx base rel w h1 hp, duplicate_fault ctx _ ht]
      show _ ∈ during w (published host ctx base rel s w)
      rw [during_published]
      simp [copyEvents, published]
  · intro t ht
    rw [CallImport_cgo_contract_success host ctx base rel w h1 hp ht]
    exact ⟨_, rfl⟩

/-- A host that sets the flag to 2 and resolves to the empty path: the
found-here buffer holds the empty string. -/
theorem CallImport_cgo_publishes_path_witness :
    (hostReply (okHost helloBytes [] 2) ctx0 base0 rel0 world0).success ≠ 0 ∧
    cstrAt (hostReply (okHost helloBytes [] 2) ctx0 base0 rel0 world0).heap
      (hostReply (okHost helloBytes [] 2) ctx0 base0 rel0 world0).path = Except.ok [] ∧
    cstrAt (CallImport_cgo (okHost helloBytes [] 2) ctx0 base0 rel0 world0).2.heap
      (CallImport_cgo (okHost helloBytes [] 2) ctx0 base0 rel0 world0).2.found_here = Except.ok [] :=
  ⟨by decide, by decide,
    (CallImport_cgo_publishes_path (okHost helloBytes [] 2) ctx0 base0 rel0 world0 []
      (by decide) (by decide)).2.1⟩

/-- C3: when the host sets the success flag to 0, the cell `*found_here` holds
after the run what it held before; the run is the same whatever pointer the
host stored through its `path` out-parameter, so that pointer is never read;
and with a C string as result the run returns. -/
theorem CallImport_cgo_failure_keeps_found_here (host : HostFn) (ctx base rel : Ptr) (w : World)
    (h0 : (hostReply host ctx base rel w).success = 0) :
    (CallImport_cgo host ctx base rel w).2.found_here = w.found_here ∧
      (∀ p, CallImport_cgo (storingPath host p) ctx base rel w = CallImport_cgo host ctx base rel w) ∧
      (∀ t, cstrAt (hostReply host ctx base rel w).heap (hostReply host ctx base rel w).result = Except.ok t →
        ∃ ret, (CallImport_cgo host ctx base rel w).1 = Except.ok ret) := by
  refine ⟨?_, ?_, ?_⟩
  · cases ht : cstrAt (hostReply host ctx base rel w).heap (hostReply host ctx base rel w).result with
    | ok t =>
      rw [CallImport_cgo_contract_failure host ctx base rel w h0 ht]
      rfl
    | error e =>
      rw [CallImport_cgo_of_failure host ctx base rel w h0,
        duplicate_fault ctx _ (w := afterHost host ctx base rel w) ht]
      rfl
  · intro p
    have h0p : (hostReply (storingPath host p) ctx base rel w).success = 0 := h0
    rw [CallImport_cgo_of_failure host ctx base rel w h0,
      CallImport_cgo_of_failure (storingPath host p) ctx base rel w h0p]
    rfl
  · intro t ht
    rw [CallImport_cgo_contract_failure host ctx base rel w h0 ht]
    exact ⟨_, rfl⟩

/-- The second scenario of the spec: the import is missing, the diagnostic is
returned and the stale pointer in `*found_here` stays. -/
theorem CallImport_cgo_failure_keeps_found_here_witness :
    (hostReply (failHost diagBytes) ctx0 base0 rel0 world0).success = 0 ∧
    (CallImport_cgo (failHost diagBytes) ctx0 base0 rel0 world0).2.found_here = Ptr.addr 77 0 :=
  ⟨by decide, (CallImport_cgo_failure_keeps_found_here (failHost diagBytes) ctx0 base0 rel0 world0
    (by decide)).1⟩

/-- C4: after every run the cell `*success` holds exactly the value the host
resolver stored there; the trampoline does not write or normalise it. -/
theorem CallImport_cgo_success_flag_unchanged (host : HostFn) (ctx base rel : Ptr) (w : World) :
    (CallImport_cgo host ctx base rel w).2.success = (hostReply host ctx base rel w).success := by
  rcases CallImport_cgo_cases host ctx base rel w with
    ⟨-, t, -, h⟩ | ⟨-, e, h⟩ | ⟨-, e, h⟩ | ⟨-, s, t, -, -, h⟩ | ⟨-, s, e, -, h⟩ <;>
  · rw [h]
    rfl

/-- C5: every allocator request made during a run asks for at least one byte
and is answered with a non-null block; whenever the run returns, the returned
buffer is non-null and holds a C string whose terminator sits right after it,
and so does the found-here buffer when the success flag is nonzero; and under
the host's contract (a C string as result and, on success, as path) the run
does return, the byte at index `strlen` of each buffer being NUL. -/
theorem CallImport_cgo_buffers_terminated (host : HostFn) (ctx base rel : Ptr) (w : World) :
    (∀ vm old sz ret, Event.jsonnet_realloc vm old sz ret ∈ during w (CallImport_cgo host ctx base rel w).2 →
        1 ≤ sz ∧ ret ≠ Ptr.null) ∧
    (∀ ret w1, CallImport_cgo host ctx base rel w = (Except.ok ret, w1) →
        ret ≠ Ptr.null ∧
        (∃ t, cstrAt w1.heap ret = Except.ok t ∧ byteAt w1.heap ret t.length = some 0) ∧
        (w1.success ≠ 0 → w1.found_here ≠ Ptr.null ∧
          ∃ s, cstrAt w1.heap w1.found_here = Except.ok s ∧ byteAt w1.heap w1.found_here s.length = some 0)) ∧
    (∀ t, cstrAt (hostReply host ctx base rel w).heap (hostReply host ctx base rel w).result = Except.ok t →
        ((hostReply host ctx base rel w).success ≠ 0 →
          ∃ s, cstrAt (hostReply host ctx base rel w).heap (hostReply host ctx base rel w).path = Except.ok s) →
        ∃ ret w1, CallImport_cgo host ctx base rel w = (Except.ok ret, w1) ∧
          byteAt w1.heap ret t.length = some 0 ∧
          (∀ s, (hostReply host ctx base rel w).success ≠ 0 →
            cstrAt (hostReply host ctx base rel w).heap (hostReply host ctx base rel w).path = Except.ok s →
            byteAt w1.heap w1.found_here s.length = some 0)) := by
  refine ⟨?_, ?_, ?_⟩
  · intro vm old sz ret hmem
    rcases CallImport_cgo_cases host ctx base rel w with
      ⟨-, t, -, h⟩ | ⟨-, e, h⟩ | ⟨-, e, h⟩ | ⟨-, s, t, -, -, h⟩ | ⟨-, s, e, -, h⟩
    · rw [h] at hmem
      simp only [during_copied_afterHost] at hmem
      obtain ⟨-, -, rfl, rfl⟩ := alloc_of_mem_copyEvents (alloc_mem_tail hmem)
      exact ⟨by omega, by simp⟩
    · rw [h] at hmem
      simp [during_afterHost, hostEvent] at hmem
    · rw [h] at hmem
      simp [during_afterHost, hostEvent] at hmem
    · rw [h] at hmem
      simp only [during_copied_published] at hmem
      rcases List.mem_append.1 (alloc_mem_tail hmem) with hmem | hmem
      · obtain ⟨-, -, rfl, rfl⟩ := alloc_of_mem_copyEvents hmem
        exact ⟨by omega, by simp⟩
      · obtain ⟨-, -, rfl, rfl⟩ := alloc_of_mem_copyEvents hmem
        exact ⟨by omega, by simp⟩
    · rw [h] at hmem
      simp only [during_published] at hmem
      obtain ⟨-, -, rfl, rfl⟩ := alloc_of_mem_copyEvents (alloc_mem_tail hmem)
      exact ⟨by omega, by simp⟩
  · intro ret w1 hrun
    rcases CallImport_cgo_cases host ctx base rel w with
      ⟨h0, t, ht, h⟩ | ⟨-, e, h⟩ | ⟨-, e, h⟩ | ⟨h1, s, t, hs, ht, h⟩ | ⟨-, s, e, -, h⟩
    · simp only [h, Prod.mk.injEq, Except.ok.injEq] at hrun
      obtain ⟨rfl, rfl⟩ := hrun
      have hc := cstrAt_copied ctx (hostReply host ctx base rel w).result
        (afterHost host ctx base rel w) (cstrAt_nonzero ht)
      exact ⟨by simp, ⟨t, hc, byteAt_of_cstrAt hc⟩, fun hne => absurd h0 hne⟩
    · simp [h] at hrun
    · simp [h] at hrun
    · simp only [h, Prod.mk.injEq, Except.ok.injEq] at hrun
      obtain ⟨rfl, rfl⟩ := hrun
      have hc := cstrAt_copied ctx (hostReply host ctx base rel w).result
        (published host ctx base rel s w) (cstrAt_nonzero ht)
      rw [published_length] at hc
      have hf := cstrAt_copied_old ctx (hostReply host ctx base rel w).result t
        (published host ctx base rel s w) (cstrAt_published_new host ctx base rel w (cstrAt_nonzero hs))
      exact ⟨by simp, ⟨t, hc, byteAt_of_cstrAt hc⟩, fun _ => ⟨by simp [copied, published], s, hf,
        byteAt_of_cstrAt hf⟩⟩
    · simp [h] at hrun
  · intro t ht hp
    by_cases h0 : (hostReply host ctx base rel w).success = 0
    · refine ⟨_, _, CallImport_cgo_contract_failure host ctx base rel w h0 ht, ?_, ?_⟩
      · exact byteAt_of_cstrAt (cstrAt_copied ctx (hostReply host ctx base rel w).result
          (afterHost host ctx base rel w) (cstrAt_nonzero ht))
      · intro s h1
        exact absurd h0 h1
    · obtain ⟨s, hs⟩ := hp h0
      refine ⟨_, _, CallImport_cgo_contract_success host ctx base rel w h0 hs ht, ?_, ?_⟩
      · have hc := cstrAt_copied ctx (hostReply host ctx base rel w).result
          (published host ctx base rel s w) (cstrAt_nonzero ht)
        rw [published_length] at hc
        exact byteAt_of_cstrAt hc
      · intro s2 _ hs2
        have hss : s2 = s := by
          rw [hs] at hs2
          exact (Except.ok.inj hs2).symm
        subst hss
        exact byteAt_of_cstrAt (cstrAt_copied_old ctx (hostReply host ctx base rel w).result t
          (published host ctx base rel s2 w) (cstrAt_published_new host ctx base rel w (cstrAt_nonzero hs)))

/-- The first scenario of the spec: "hello" is returned in a block whose byte 5
is NUL and "/a/c.ext" is published in a block whose byte 8 is NUL. -/
theorem CallImport_cgo_buffers_terminated_witness :
    cstrAt (hostReply (okHost helloBytes foundBytes 1) ctx0 base0 rel0 world0).heap
      (hostReply (okHost helloBytes foundBytes 1) ctx0 base0 rel0 world0).result = Except.ok helloBytes ∧
    ∃ ret w1, CallImport_cgo (okHost helloBytes foundBytes 1) ctx0 base0 rel0 world0 = (Except.ok ret, w1) ∧
      byteAt w1.heap ret 5 = some 0 ∧
      (∀ s, (hostReply (okHost helloBytes foundBytes 1) ctx0 base0 rel0 world0).success ≠ 0 →
        cstrAt (hostReply (okHost helloBytes foundBytes 1) ctx0 base0 rel0 world0).heap
          (hostReply (okHost helloBytes foundBytes 1) ctx0 base0 rel0 world0).path = Except.ok s →
        byteAt w1.heap w1.found_here s.length = some 0) :=
  ⟨by decide,
    (CallImport_cgo_buffers_terminated (okHost helloBytes foundBytes 1) ctx0 base0 rel0 world0).2.2
      helloBytes (by decide) (fun _ => ⟨foundBytes, by decide⟩)⟩

/-- C6: against a deterministic host that honours its contract, two runs on
the same handle and the same base and relative path strings, started in any
two states (in particular the second in the state the first one left), both
return, and they return the same content string, the same success flag and, on
success, the same found-here string. -/
theorem CallImport_cgo_deterministic (host : HostFn) (hdet : DeterministicHost host)
    (ctx base rel : Ptr) (w w2 : World) (t : List Byte)
    (hbase : snapshot w.heap base = snapshot w2.heap base)
    (hrel : snapshot w.heap rel = snapshot w2.heap rel)
    (ht : cstrAt (hostReply host ctx base rel w).heap (hostReply host ctx base rel w).result = Except.ok t)
    (hp : (hostReply host ctx base rel w).success ≠ 0 →
      ∃ s, cstrAt (hostReply host ctx base rel w).heap (hostReply host ctx base rel w).path = Except.ok s) :
    ∃ ret1 w1 ret2 w3,
      CallImport_cgo host ctx base rel w = (Except.ok ret1, w1) ∧
      CallImport_cgo host ctx base rel w2 = (Except.ok ret2, w3) ∧
      cstrAt w1.heap ret1 = Except.ok t ∧ cstrAt w3.heap ret2 = Except.ok t ∧
      w1.success = w3.success ∧
      (w1.success ≠ 0 → ∃ s, cstrAt w1.heap w1.found_here = Except.ok s ∧
        cstrAt w3.heap w3.found_here = Except.ok s) := by
  obtain ⟨hsucc, hres, hpath⟩ := hdet ctx base rel Ptr.null Ptr.null w.success w2.success w.heap w2.heap
    hbase hrel
  have hsucc2 : (hostReply host ctx base rel w).success = (hostReply host ctx base rel w2).success := hsucc
  have ht2 : cstrAt (hostReply host ctx base rel w2).heap (hostReply host ctx base rel w2).result =
      Except.ok t := by
    apply cstrAt_of_snapshot
    rw [← snapshot_of_cstrAt ht]
    exact hres.symm
  have hz := cstrAt_nonzero ht
  by_cases h0 : (hostReply host ctx base rel w).success = 0
  · have h02 : (hostReply host ctx base rel w2).success = 0 := hsucc2 ▸ h0
    refine ⟨_, _, _, _, CallImport_cgo_contract_failure host ctx base rel w h0 ht,
      CallImport_cgo_contract_failure host ctx base rel w2 h02 ht2,
      cstrAt_copied ctx _ (afterHost host ctx base rel w) hz,
      cstrAt_copied ctx _ (afterHost host ctx base rel w2) hz, ?_, ?_⟩
    · exact hsucc2
    · intro hne
      exact absurd h0 hne
  · have h12 : (hostReply host ctx base rel w2).success ≠ 0 := hsucc2 ▸ h0
    obtain ⟨s, hs⟩ := hp h0
    have hs2 : cstrAt (hostReply host ctx base rel w2).heap (hostReply host ctx base rel w2).path =
        Except.ok s := by
      apply cstrAt_of_snapshot
      rw [← snapshot_of_cstrAt hs]
      exact (hpath h0).symm
    have hzs := cstrAt_nonzero hs
    have hc1 := cstrAt_copied ctx (hostReply host ctx base rel w).result
      (published host ctx base rel s w) hz
    have hc2 := cstrAt_copied ctx (hostReply host ctx base rel w2).result
      (published host ctx base rel s w2) hz
    rw [published_length] at hc1 hc2
    refine ⟨_, _, _, _, CallImport_cgo_contract_success host ctx base rel w h0 hs ht,
      CallImport_cgo_contract_success host ctx base rel w2 h12 hs2 ht2, hc1, hc2, hsucc2, fun _ => ⟨s, ?_, ?_⟩⟩
    · exact cstrAt_copied_old ctx _ t (published host ctx base rel s w)
        (cstrAt_published_new host ctx base rel w hzs)
    · exact cstrAt_copied_old ctx _ t (published host ctx base rel s w2)
        (cstrAt_published_new host ctx base rel w2 hzs)

/-- The first scenario of the spec run twice in a row: the second run starts in
the state the first one left and returns "hello" again. -/
theorem CallImport_cgo_deterministic_witness :
    DeterministicHost (okHost helloBytes foundBytes 1) ∧
    snapshot world0.heap base0 =
      snapshot (CallImport_cgo (okHost helloBytes foundBytes 1) ctx0 base0 rel0 world0).2.heap base0 ∧
    ∃ ret1 w1 ret2 w3,
      CallImport_cgo (okHost helloBytes foundBytes 1) ctx0 base0 rel0 world0 = (Except.ok ret1, w1) ∧
      CallImport_cgo (okHost helloBytes foundBytes 1) ctx0 base0 rel0
        (CallImport_cgo (okHost helloBytes foundBytes 1) ctx0 base0 rel0 world0).2 = (Except.ok ret2, w3) ∧
      cstrAt w1.heap ret1 = Except.ok helloBytes ∧ cstrAt w3.heap ret2 = Except.ok helloBytes ∧
      w1.success = w3.success ∧
      (w1.success ≠ 0 → ∃ s, cstrAt w1.heap w1.found_here = Except.ok s ∧
        cstrAt w3.heap w3.found_here = Except.ok s) :=
  ⟨okHost_deterministic 1, by decide,
    CallImport_cgo_deterministic (okHost helloBytes foundBytes 1) (okHost_deterministic 1) ctx0 base0 rel0
      world0 (CallImport_cgo (okHost helloBytes foundBytes 1) ctx0 base0 rel0 world0).2 helloBytes
      (by decide) (by decide) (by decide) (fun _ => ⟨foundBytes, by decide⟩)⟩

/-- C8: under the host's contract the run returns, and the allocator requests
logged during it are exactly these: on success one on the handle `ctx` with a
NULL old pointer and `strlen(path) + 1` bytes, whose answer is the pointer in
`*found_here`, and always one on `ctx` with a NULL old pointer and
`strlen(result) + 1` bytes, whose answer is the returned pointer.  The
pointers handed back point into no block of the heap the host left, so they
differ from the host's result and (on success) path pointers, and every block
the heap gained was obtained by one of the logged requests. -/
theorem CallImport_cgo_allocation_discipline (host : HostFn) (ctx base rel : Ptr) (w : World)
    (s t : List Byte)
    (ht : cstrAt (hostReply host ctx base rel w).heap (hostReply host ctx base rel w).result = Except.ok t)
    (hp : (hostReply host ctx base rel w).success ≠ 0 →
      cstrAt (hostReply host ctx base rel w).heap (hostReply host ctx base rel w).path = Except.ok s) :
    ∃ ret w1, CallImport_cgo host ctx base rel w = (Except.ok ret, w1) ∧
      allocations (during w w1) =
        (if (hostReply host ctx base rel w).success ≠ 0 then
          [Event.jsonnet_realloc ctx Ptr.null (s.length + 1) w1.found_here] else []) ++
        [Event.jsonnet_realloc ctx Ptr.null (t.length + 1) ret] ∧
      ret ≠ (hostReply host ctx base rel w).result ∧
      load (hostReply host ctx base rel w).heap ret = Except.error Fault.badPointer ∧
      ((hostReply host ctx base rel w).success ≠ 0 →
        w1.found_here ≠ (hostReply host ctx base rel w).path ∧
        w1.found_here ≠ (hostReply host ctx base rel w).result ∧
        ret ≠ (hostReply host ctx base rel w).path ∧
        load (hostReply host ctx base rel w).heap w1.found_here = Except.error Fault.badPointer) ∧
      w1.heap.blocks.length =
        (hostReply host ctx base rel w).heap.blocks.length + (allocations (during w w1)).length := by
  by_cases h0 : (hostReply host ctx base rel w).success = 0
  · refine ⟨_, _, CallImport_cgo_contract_failure host ctx base rel w h0 ht, ?_, ?_, ?_, ?_, ?_⟩
    · rw [during_copied_afterHost]
      simp [h0, allocations, copyEvents, hostEvent, Event.isAlloc]
    · exact fresh_ne_of_cstrAt ht (Nat.le_refl _) 0
    · exact load_fresh _ (Nat.le_refl _) 0
    · intro hne
      exact absurd h0 hne
    · rw [during_copied_afterHost]
      simp [allocations, copyEvents, hostEvent, Event.isAlloc, copied, afterHost_heap]
  · have hs := hp h0
    refine ⟨_, _, CallImport_cgo_contract_success host ctx base rel w h0 hs ht, ?_, ?_, ?_, ?_, ?_⟩
    · rw [during_copied_published]
      simp [h0, allocations, copyEvents, hostEvent, Event.isAlloc, copied, published]
    · exact fresh_ne_of_cstrAt ht (Nat.le_succ _) 0
    · exact load_fresh _ (Nat.le_succ _) 0
    · intro _
      exact ⟨fresh_ne_of_cstrAt hs (Nat.le_refl _) 0, fresh_ne_of_cstrAt ht (Nat.le_refl _) 0,
        fresh_ne_of_cstrAt hs (Nat.le_succ _) 0, load_fresh _ (Nat.le_refl _) 0⟩
    · rw [during_copied_published]
      simp [allocations, copyEvents, hostEvent, Event.isAlloc, copied, published_heap]

/-- The first scenario of the spec: blocks 4 and 5 are requested from the
engine, of 9 and 6 bytes, and handed back. -/
theorem CallImport_cgo_allocation_discipline_witness :
    cstrAt (hostReply (okHost helloBytes foundBytes 1) ctx0 base0 rel0 world0).heap
      (hostReply (okHost helloBytes foundBytes 1) ctx0 base0 rel0 world0).result = Except.ok helloBytes ∧
    ∃ ret w1, CallImport_cgo (okHost helloBytes foundBytes 1) ctx0 base0 rel0 world0 = (Except.ok ret, w1) ∧
      allocations (during world0 w1) =
        (if (hostReply (okHost helloBytes foundBytes 1) ctx0 base0 rel0 world0).success ≠ 0 then
          [Event.jsonnet_realloc ctx0 Ptr.null (foundBytes.length + 1) w1.found_here] else []) ++
        [Event.jsonnet_realloc ctx0 Ptr.null (helloBytes.length + 1) ret] :=
  ⟨by decide,
    match CallImport_cgo_allocation_discipline (okHost helloBytes foundBytes 1) ctx0 base0 rel0 world0
      foundBytes helloBytes (by decide) (fun _ => by decide) with
    | ⟨ret, w1, hrun, hlog, _⟩ => ⟨ret, w1, hrun, hlog⟩⟩

/-- C9: during every run the host resolver is called exactly once, whether the
resolution succeeds, fails or the run faults, and the call is made on the
context handle, the base pointer and the relative pointer the trampoline was
given, with the strings behind them as they were when the trampoline was
entered. -/
theorem CallImport_cgo_calls_host_once (host : HostFn) (ctx base rel : Ptr) (w : World) :
    hostCalls (during w (CallImport_cgo host ctx base rel w).2) =
      [Event.go_call_import ctx base rel (snapshot w.heap base) (snapshot w.heap rel)] := by
  rcases CallImport_cgo_cases host ctx base rel w with
    ⟨-, t, -, h⟩ | ⟨-, e, h⟩ | ⟨-, e, h⟩ | ⟨-, s, t, -, -, h⟩ | ⟨-, s, e, -, h⟩
  · rw [h, during_copied_afterHost]
    simp [hostCalls, copyEvents, hostEvent, Event.isHostCall]
  · rw [h, during_afterHost]
    simp [hostCalls, hostEvent, Event.isHostCall]
  · rw [h, during_afterHost]
    simp [hostCalls, hostEvent, Event.isHostCall]
  · rw [h, during_copied_published]
    simp [hostCalls, copyEvents, hostEvent, Event.isHostCall]
  · rw [h, during_published]
    simp [hostCalls, copyEvents, hostEvent, Event.isHostCall]

/-- C10: under the host's contract (the result is a C string and, when the
success flag is nonzero, so is the path) no fault is reached: the run returns,
every pointer given to `strlen` and `strcpy` is non-null, and the trace of the
run is exactly the host call followed, for the path on success and for the
result always, by `strlen` of the source, a request for `strlen + 1` bytes and
a `strcpy` of `strlen + 1` bytes into the block obtained.  A host that reports
failure may leave `path` unset. -/
theorem CallImport_cgo_safe (host : HostFn) (ctx base rel : Ptr) (w : World) (s t : List Byte)
    (ht : cstrAt (hostReply host ctx base rel w).heap (hostReply host ctx base rel w).result = Except.ok t)
    (hp : (hostReply host ctx base rel w).success ≠ 0 →
      cstrAt (hostReply host ctx base rel w).heap (hostReply host ctx base rel w).path = Except.ok s) :
    ∃ ret w1, CallImport_cgo host ctx base rel w = (Except.ok ret, w1) ∧
      (hostReply host ctx base rel w).result ≠ Ptr.null ∧ ret ≠ Ptr.null ∧
      ((hostReply host ctx base rel w).success ≠ 0 →
        (hostReply host ctx base rel w).path ≠ Ptr.null ∧ w1.found_here ≠ Ptr.null) ∧
      during w w1 =
        Event.go_call_import ctx base rel (snapshot w.heap base) (snapshot w.heap rel) ::
          ((if (hostReply host ctx base rel w).success ≠ 0 then
            [Event.strlen (hostReply host ctx base rel w).path s.length,
             Event.jsonnet_realloc ctx Ptr.null (s.length + 1) w1.found_here,
             Event.strcpy w1.found_here (hostReply host ctx base rel w).path (s.length + 1)] else []) ++
          [Event.strlen (hostReply host ctx base rel w).result t.length,
           Event.jsonnet_realloc ctx Ptr.null (t.length + 1) ret,
           Event.strcpy ret (hostReply host ctx base rel w).result (t.length + 1)]) := by
  have hres : (hostReply host ctx base rel w).result ≠ Ptr.null := by
    obtain ⟨b, o, hb, -⟩ := block_lt_of_cstrAt ht
    rw [hb]
    simp
  by_cases h0 : (hostReply host ctx base rel w).success = 0
  · refine ⟨_, _, CallImport_cgo_contract_failure host ctx base rel w h0 ht, hres, by simp, ?_, ?_⟩
    · intro hne
      exact absurd h0 hne
    · rw [during_copied_afterHost]
      simp [h0, copyEvents, hostEvent]
  · have hs := hp h0
    have hpath : (hostReply host ctx base rel w).path ≠ Ptr.null := by
      obtain ⟨b, o, hb, -⟩ := block_lt_of_cstrAt hs
      rw [hb]
      simp
    refine ⟨_, _, CallImport_cgo_contract_success host ctx base rel w h0 hs ht, hres, by simp, ?_, ?_⟩
    · intro _
      exact ⟨hpath, by simp [copied, published]⟩
    · rw [during_copied_published]
      simp [h0, copyEvents, hostEvent, copied, published]

/-- The second scenario of the spec: the host reports failure and leaves
`path` unset, and the run returns without a fault. -/
theorem CallImport_cgo_safe_witness :
    (hostReply (failHost diagBytes) ctx0 base0 rel0 world0).path = Ptr.null ∧
    cstrAt (hostReply (failHost diagBytes) ctx0 base0 rel0 world0).heap
      (hostReply (failHost diagBytes) ctx0 base0 rel0 world0).result = Except.ok diagBytes ∧
    ∃ ret w1, CallImport_cgo (failHost diagBytes) ctx0 base0 rel0 world0 = (Except.ok ret, w1) ∧
      (hostReply (failHost diagBytes) ctx0 base0 rel0 world0).result ≠ Ptr.null ∧ ret ≠ Ptr.null :=
  ⟨by decide, by decide,
    match CallImport_cgo_safe (failHost diagBytes) ctx0 base0 rel0 world0 [] diagBytes (by decide)
      (fun h => absurd (by decide) h) with
    | ⟨ret, w1, hrun, h1, h2, _⟩ => ⟨ret, w1, hrun, h1, h2⟩⟩

end JsonnetCgo
